import Mathlib

/-!
Verification development for the subscription-converter repository.

The repository is a Clash subscription conversion service written in
JavaScript.  The core pipeline (src/server.js and src/lib/batch.js) is
embedded shallowly below:

* JavaScript values that can appear in a parsed manifest are modelled by
  the mutual inductive family `JSVal` / `JSList` / `JSFields` (objects
  keep their fields in insertion order, like JS objects).
* `validateConfig` embeds the validator of src/lib/batch.js lines
  362-400, `executeScript` embeds the sandbox executor of lines 255-355,
* `downloadSubscription` embeds the fetch-with-cache-fallback of
  src/server.js lines 147-208,
* `batchProcess` / `batchProcessParallel` embed the batch runner of
  src/lib/batch.js lines 17-245,
* a small reference heap model (`Heap`, `copyHeap`, `executeScriptHeap`)
  captures the aliasing semantics of the deep copy performed at
  src/lib/batch.js line 282.
-/

/-! ## JavaScript value model -/

mutual

/-- A JavaScript value as it can appear in a parsed manifest: the JSON
primitives, functions, `Date` objects, arrays and plain objects.
Numbers are modelled by `Rat` (JS numbers are not restricted to
integers; the special value NaN is not modelled, no claim depends on
it). -/
inductive JSVal : Type where
  | undefined : JSVal
  | jnull : JSVal
  | jbool (b : Bool) : JSVal
  | jnum (q : Rat) : JSVal
  | jstr (s : String) : JSVal
  | jfunc : JSVal
  | jdate (iso : String) : JSVal
  | jarr (xs : JSList) : JSVal
  | jobj (fs : JSFields) : JSVal

/-- A list of JavaScript values (array elements). -/
inductive JSList : Type where
  | nil : JSList
  | cons (x : JSVal) (xs : JSList) : JSList

/-- The fields of a JavaScript object, in insertion order.  JS object
keys are unique; where a proof needs this it is an explicit `Nodup`
hypothesis on `fieldKeys`. -/
inductive JSFields : Type where
  | nil : JSFields
  | cons (k : String) (v : JSVal) (fs : JSFields) : JSFields

end

/-- The keys of an object, in insertion order. -/
def fieldKeys : JSFields → List String
  | .nil => []
  | .cons k _ fs => k :: fieldKeys fs

/-- Property lookup on a field list: first occurrence wins, `none`
means the key is absent. -/
def fieldLookup : JSFields → String → Option JSVal
  | .nil, _ => none
  | .cons k v fs, key => if k = key then some v else fieldLookup fs key

/-- JavaScript truthiness: `undefined`, `null`, `false`, `0` and the
empty string are falsy, everything else (including every object and
array) is truthy. -/
def jsTruthy : JSVal → Bool
  | .undefined => false
  | .jnull => false
  | .jbool b => b
  | .jnum q => !(q == 0)
  | .jstr s => !(s == "")
  | .jfunc => true
  | .jdate _ => true
  | .jarr _ => true
  | .jobj _ => true

/-- The result of the JavaScript `typeof` operator.  Note that
`typeof null`, arrays and `Date` objects are all `"object"`. -/
def typeofStr : JSVal → String
  | .undefined => "undefined"
  | .jnull => "object"
  | .jbool _ => "boolean"
  | .jnum _ => "number"
  | .jstr _ => "string"
  | .jfunc => "function"
  | .jdate _ => "object"
  | .jarr _ => "object"
  | .jobj _ => "object"

/-- The test `Array.isArray`. -/
def isArrayVal : JSVal → Bool
  | .jarr _ => true
  | _ => false

/-- Property access `config[key]` for the string keys the validator
uses: on plain objects it is field lookup (absent keys give
`undefined`); every other value has no such own property, so access
yields `undefined`. -/
def getField : JSVal → String → JSVal
  | .jobj fs, key => (fieldLookup fs key).getD .undefined
  | _, _ => .undefined

/-! ## Validator (src/lib/batch.js lines 362-400) -/

/-- The distinct failures `executeScript` and `validateConfig` can
raise, one constructor per `throw new Error(...)` site (the catch
block at lines 339-354 only rewrites message strings, which no claim
depends on). -/
inductive ScriptError : Type where
  /-- line 364: 配置必须是有效的对象 -/
  | looseInvalid : ScriptError
  /-- line 286: 脚本中缺少main函数声明 -/
  | missingMain : ScriptError
  /-- the call `new Function` at line 297 rejecting malformed routine source -/
  | compileFail : ScriptError
  /-- the routine body itself threw (including the typeof-main check
  at line 310 inside the generated wrapper) -/
  | scriptThrew (msg : String) : ScriptError
  /-- lines 302 and 327: 脚本执行超时 -/
  | timeout : ScriptError
  /-- line 332: 脚本的main函数必须返回配置对象 -/
  | invalidReturn : ScriptError
  /-- lines 371/376/381: `field`必须是数组 -/
  | notArray (field : String) : ScriptError
  /-- line 391: `field`必须是0-65535之间的有效端口号 -/
  | badPort (field : String) : ScriptError
  /-- line 397: mode必须是rule、global或direct之一 -/
  | badMode : ScriptError
deriving DecidableEq

/-- The port-field test of lines 386-393: the field is rejected iff it
is not `undefined` and fails `typeof x === number && 0 <= x <= 65535`.
Note the source does not require the number to be an integer. -/
def badPortField (c : JSVal) (f : String) : Bool :=
  match getField c f with
  | .undefined => false
  | .jnum q => decide (q < 0) || decide ((65535 : Rat) < q)
  | _ => true

/-- The mode test of line 396: `[rule, global, direct].includes(mode)`
with strict equality, so only those three exact strings pass. -/
def modeOk : JSVal → Bool
  | .jstr s => s == "rule" || s == "global" || s == "direct"
  | _ => false

/-- The function `validateConfig(config, isResult)` from src/lib/batch.js lines
362-400.  With `isResult = false` only the loose object check runs;
with `isResult = true` the strict checks run in source order, the
first failing check wins.  Each `rules`/`proxies`/`proxy-groups`/`mode`
check is guarded by the truthiness of the field value (the source
writes `config.rules && ...`), while the port checks are guarded by
`!== undefined`. -/
def validateConfig (config : JSVal) (isResult : Bool) : Except ScriptError Unit :=
  if !jsTruthy config || typeofStr config != "object" then .error .looseInvalid
  else if !isResult then .ok ()
  else if jsTruthy (getField config "rules") && !isArrayVal (getField config "rules") then
    .error (.notArray "rules")
  else if jsTruthy (getField config "proxies") && !isArrayVal (getField config "proxies") then
    .error (.notArray "proxies")
  else if jsTruthy (getField config "proxy-groups") && !isArrayVal (getField config "proxy-groups") then
    .error (.notArray "proxy-groups")
  else if badPortField config "port" then .error (.badPort "port")
  else if badPortField config "socks-port" then .error (.badPort "socks-port")
  else if badPortField config "mixed-port" then .error (.badPort "mixed-port")
  else if jsTruthy (getField config "mode") && !modeOk (getField config "mode") then
    .error .badMode
  else .ok ()

/-- The rational number 1/2, built directly so that kernel reduction
works on it (the division operator on `Rat` does not reduce). -/
def ratHalf : Rat := ⟨1, 2, by decide, by decide⟩

example : validateConfig (.jobj (.cons "port" (.jnum 70000) .nil)) true =
    .error (.badPort "port") := by rfl
example : validateConfig (.jobj (.cons "port" (.jnum ratHalf) .nil)) true =
    .ok () := by rfl
example : validateConfig (.jobj (.cons "rules" (.jnum 0) .nil)) true = .ok () := by rfl
example : validateConfig (.jarr .nil) true = .ok () := by rfl
example : validateConfig .jnull false = .error .looseInvalid := by rfl

/-! ## Sandbox executor (src/lib/batch.js lines 255-355) -/

/-- The wall-clock budget of line 290: `const timeoutMs = 10000`. -/
def timeoutMs : Nat := 10000

/-- Whether `pat` occurs at the start of `s`. -/
def patAtStart : List Char → List Char → Bool
  | [], _ => true
  | _ :: _, [] => false
  | a :: as, b :: bs => a == b && patAtStart as bs

/-- Whether `pat` occurs anywhere inside `s` (the semantics of
`String.prototype.includes`). -/
def patOccurs (pat : List Char) : List Char → Bool
  | [] => patAtStart pat []
  | b :: bs => patAtStart pat (b :: bs) || patOccurs pat bs

/-- The fast textual entry-point check of line 285:
`script.includes(\x27function main\x27)`. -/
def hasMainDecl (source : String) : Bool :=
  patOccurs "function main".toList source.toList

/-- What the compiled wrapper does when it is invoked: either some
statement of the routine (including the typeof-main guard of line 309
and the call of `main` itself) throws, or `main` returns a value. -/
inductive RunOutcome : Type where
  | throws (msg : String) : RunOutcome
  | ret (v : JSVal) : RunOutcome

/-- A user transformation routine as the executor sees it: its source
text, whether `new Function` accepts that text (line 297), and the
behaviour of the compiled wrapper body as a function of the config
object it receives and the profile name. -/
structure SandboxScript : Type where
  source : String
  compileOk : Bool
  run : JSVal → String → RunOutcome

mutual

/-- The round trip `JSON.parse(JSON.stringify(v))` on the value model (line 282).
`none` means the value has no JSON representation at all (a bare
`undefined` or function).  Inside arrays such values serialize to
`null`; inside objects the whole field is dropped.  `Date` values are
converted to their ISO string by `toJSON`. -/
def jsonRT : JSVal → Option JSVal
  | .undefined => none
  | .jfunc => none
  | .jdate iso => some (.jstr iso)
  | .jnull => some .jnull
  | .jbool b => some (.jbool b)
  | .jnum q => some (.jnum q)
  | .jstr s => some (.jstr s)
  | .jarr xs => some (.jarr (jsonRTList xs))
  | .jobj fs => some (.jobj (jsonRTFields fs))

/-- Array elements with no JSON representation become `null`. -/
def jsonRTList : JSList → JSList
  | .nil => .nil
  | .cons x xs => .cons ((jsonRT x).getD .jnull) (jsonRTList xs)

/-- Object fields whose value has no JSON representation are dropped;
the other fields keep their insertion order. -/
def jsonRTFields : JSFields → JSFields
  | .nil => .nil
  | .cons k v fs =>
    match jsonRT v with
    | none => jsonRTFields fs
    | some w => .cons k w (jsonRTFields fs)

end

/-- The deep copy handed to the routine (line 282):
`JSON.parse(JSON.stringify(config))`.  `executeScript` only reaches
this line when `config` passed the loose object check, in which case
the round trip always produces a value. -/
def configCopy (config : JSVal) : JSVal :=
  (jsonRT config).getD .undefined

/-- The `hasTimedOut` flag as observed by the check at line 326.  The
`setTimeout` callback of line 292 can only run when control returns to
the Node.js event loop; the synchronous `scriptFunction` call, the
`clearTimeout` and the flag check all happen in the same tick, so the
flag is always still `false` at that point. -/
def hasTimedOutAtCheck : Bool := false

/-- The function `executeScript(config, script, profileName)` from src/lib/batch.js
lines 255-355, with the wall-clock time that has elapsed when the
post-return deadline check of line 315 runs made an explicit argument
`elapsed` (in milliseconds).  Steps in source order:

1. loose validation of the input config (line 278);
2. deep copy (line 282);
3. textual `function main` check (line 285), before `new Function`;
4. compilation by `new Function` (line 297);
5. the wrapper body runs: routine statements, typeof-main guard and
   the `main` call (lines 306-314), producing `RunOutcome`;
6. `checkTimeout()` immediately after `main` returns (line 315):
   throws 脚本执行超时 when `elapsed > timeoutMs - 1000`;
7. the `hasTimedOut` flag check (line 326), never taken in the same
   synchronous tick;
8. the return-value check (line 331): `!result || typeof result !==
   \x27object\x27`;
9. strict validation of the result (line 336). -/
def executeScript (config : JSVal) (s : SandboxScript) (profileName : String)
    (elapsed : Nat) : Except ScriptError JSVal :=
  match validateConfig config false with
  | .error e => .error e
  | .ok () =>
    if !hasMainDecl s.source then .error .missingMain
    else if !s.compileOk then .error .compileFail
    else
      match s.run (configCopy config) profileName with
      | .throws msg => .error (.scriptThrew msg)
      | .ret result =>
        if timeoutMs - 1000 < elapsed then .error .timeout
        else if hasTimedOutAtCheck then .error .timeout
        else if !jsTruthy result || typeofStr result != "object" then .error .invalidReturn
        else
          match validateConfig result true with
          | .error e => .error e
          | .ok () => .ok result

example :
    executeScript (.jobj .nil)
      ⟨"function main(c)\x7breturn c\x7d", true, fun c _ => .ret c⟩ "p" 0 =
    .ok (.jobj .nil) := by rfl
example :
    executeScript (.jobj .nil)
      ⟨"function main(c)\x7breturn []\x7d", true, fun _ _ => .ret (.jarr .nil)⟩ "p" 0 =
    .ok (.jarr .nil) := by rfl
example :
    executeScript (.jobj .nil)
      ⟨"function main(c)\x7breturn c\x7d", true, fun c _ => .ret c⟩ "p" 9500 =
    .error .timeout := by rfl
example :
    executeScript (.jobj .nil) ⟨"no entry point here", true, fun c _ => .ret c⟩ "p" 0 =
    .error .missingMain := by rfl
example :
    executeScript (.jobj .nil)
      ⟨"function main(c)\x7breturn 5\x7d", true, fun _ _ => .ret (.jnum 5)⟩ "p" 0 =
    .error .invalidReturn := by rfl

/-! ## Fetcher with cache fallback (src/server.js lines 147-208) -/

/-- HTTP response headers, as the key/value mapping axios exposes. -/
def Headers : Type := List (String × String)

/-- A model of the `JSON.stringify` / `JSON.parse` pair the fetcher
uses when persisting non-string bodies and when reinterpreting a
cached body (src/server.js lines 169 and 197).  The text level of
JSON is kept abstract; `parse` returning `none` models `JSON.parse`
throwing. -/
structure JsonCodec : Type where
  stringify : JSVal → String
  parse : String → Option JSVal

/-- The on-disk cache for one URL: the `.cache` body file and the
`.headers.json` file.  `headersJson = none` models a missing headers
file, `some none` a headers file whose content does not parse, and
`some (some h)` a headers file that parses to `h`. -/
structure CacheState : Type where
  body : Option String
  headersJson : Option (Option Headers)

/-- The outcome of the single outbound axios request of line 156: a
response with status < 400 carrying `response.data` (already parsed by
axios when the body was JSON) and the response headers, or a failure
(network error, timeout, or status >= 400 via `validateStatus`). -/
inductive LiveResult : Type where
  | ok (content : JSVal) (headers : Headers) : LiveResult
  | fail (msg : String) : LiveResult

/-- The two terminal failures of `downloadSubscription`. -/
inductive DownloadError : Type where
  /-- line 205: 下载订阅失败且无可用缓存: url -/
  | downloadFail (url : String) : DownloadError
  /-- line 202: 下载订阅失败且缓存内容无效: url -/
  | cacheCorrupt (url : String) : DownloadError
deriving DecidableEq

/-- The first character of a string that is left after trimming
leading whitespace. -/
def firstNonWs : List Char → Option Char
  | [] => none
  | c :: cs => if c.isWhitespace then firstNonWs cs else some c

/-- The JSON-looking test of line 197:
`cachedContent.trim().startsWith(\x27\x7b\x27)` — after trimming, the
first character is an opening brace (code point 123). -/
def jsonLooking (s : String) : Bool :=
  match firstNonWs s.toList with
  | some c => c == Char.ofNat 123
  | none => false

/-- The headers recovered from the cache (lines 184-193): parse the
cached headers file when it exists; on a missing file or a parse
failure the headers stay `\x7b\x7d` (the failure is only logged). -/
def cachedHeaders (c : CacheState) : Headers :=
  match c.headersJson with
  | some (some h) => h
  | _ => []

/-- The function `downloadSubscription(url, useCache)` from src/server.js lines
147-208, with the outcome of the single network attempt made an
explicit argument `live`.  Returns the result together with the cache
state afterwards.

On success the body is persisted (a string body verbatim, any other
body via `JSON.stringify`) along with the stringified headers, and the
live `(content, headers)` pair is returned.  On failure, if `useCache`
is true and a cached body exists, the cached body is returned — first
reinterpreted by `JSON.parse` when it looks like JSON, a parse failure
being the terminal cache-corrupt error — together with the cached
headers; otherwise the download error carrying the URL is thrown.
(`fs.readFileSync` always yields a string, so the non-string branch of
the ternary at line 196 is dead and not modelled.) -/
def downloadSubscription (codec : JsonCodec) (url : String) (useCache : Bool)
    (live : LiveResult) (cache : CacheState) :
    Except DownloadError (JSVal × Headers) × CacheState :=
  match live with
  | .ok content headers =>
    let bodyStr := match content with | .jstr s => s | c => codec.stringify c
    (.ok (content, headers), ⟨some bodyStr, some (some headers)⟩)
  | .fail _ =>
    if useCache then
      match cache.body with
      | some cached =>
        if jsonLooking cached then
          match codec.parse cached with
          | some v => (.ok (v, cachedHeaders cache), cache)
          | none => (.error (.cacheCorrupt url), cache)
        else (.ok (.jstr cached, cachedHeaders cache), cache)
      | none => (.error (.downloadFail url), cache)
    else (.error (.downloadFail url), cache)

/-! ## Serialization (js-yaml dump/load as called at src/server.js
lines 259-264 and src/lib/batch.js lines 98-103, `sortKeys: false`) -/

mutual

/-- Modelled from the spec: the serializer and parser are the external
js-yaml library (not part of this repository), invoked with
`sortKeys: false`.  A serialized document is modelled structurally:
a YAML document whose mappings carry their keys in emission order,
which with `sortKeys: false` is the insertion order of the object
being dumped. -/
inductive YamlDoc : Type where
  | ynull : YamlDoc
  | ybool (b : Bool) : YamlDoc
  | ynum (q : Rat) : YamlDoc
  | ystr (s : String) : YamlDoc
  | ydate (iso : String) : YamlDoc
  | yarr (xs : YamlList) : YamlDoc
  | yobj (fs : YamlFields) : YamlDoc

/-- A YAML sequence, in order. -/
inductive YamlList : Type where
  | nil : YamlList
  | cons (x : YamlDoc) (xs : YamlList) : YamlList

/-- A YAML mapping, keys in emission order. -/
inductive YamlFields : Type where
  | nil : YamlFields
  | cons (k : String) (v : YamlDoc) (fs : YamlFields) : YamlFields

end

/-- The keys of a serialized mapping, in emission order. -/
def yamlKeys : YamlFields → List String
  | .nil => []
  | .cons k _ fs => k :: yamlKeys fs

mutual

/-- Modelled from the spec: `yaml.dump` with `sortKeys: false`.
Values with no YAML representation under the default schema (an
`undefined` or a function anywhere in the tree) make the dump throw,
modelled by `none`; `Date` values dump as timestamps.  Object fields
are emitted in insertion order. -/
def serialize : JSVal → Option YamlDoc
  | .undefined => none
  | .jfunc => none
  | .jnull => some .ynull
  | .jbool b => some (.ybool b)
  | .jnum q => some (.ynum q)
  | .jstr s => some (.ystr s)
  | .jdate iso => some (.ydate iso)
  | .jarr xs => (serializeList xs).map .yarr
  | .jobj fs => (serializeFields fs).map .yobj

/-- Serialize a sequence elementwise; any failing element fails the
whole dump. -/
def serializeList : JSList → Option YamlList
  | .nil => some .nil
  | .cons x xs =>
    match serialize x, serializeList xs with
    | some y, some ys => some (.cons y ys)
    | _, _ => none

/-- Serialize the fields of a mapping in insertion order; any failing
value fails the whole dump. -/
def serializeFields : JSFields → Option YamlFields
  | .nil => some .nil
  | .cons k v fs =>
    match serialize v, serializeFields fs with
    | some w, some ws => some (.cons k w ws)
    | _, _ => none

end

mutual

/-- Modelled from the spec: `yaml.load` of a serialized document,
recovering the value it denotes (mappings keep their key order). -/
def parseDoc : YamlDoc → JSVal
  | .ynull => .jnull
  | .ybool b => .jbool b
  | .ynum q => .jnum q
  | .ystr s => .jstr s
  | .ydate iso => .jdate iso
  | .yarr xs => .jarr (parseList xs)
  | .yobj fs => .jobj (parseFields fs)

/-- Parse a serialized sequence. -/
def parseList : YamlList → JSList
  | .nil => .nil
  | .cons x xs => .cons (parseDoc x) (parseList xs)

/-- Parse a serialized mapping. -/
def parseFields : YamlFields → JSFields
  | .nil => .nil
  | .cons k v fs => .cons k (parseDoc v) (parseFields fs)

end

/-! ## Batch runner (src/lib/batch.js lines 17-245) -/

/-- The base name `path.basename(file)`: the part after the last slash. -/
def baseNameFull (p : String) : String :=
  ((p.splitOn "/").getLast?).getD p

/-- The profile name `path.basename(file, path.extname(file))` for ordinary file names:
the base name with its last dot-extension removed (a name without a
dot is kept whole). -/
def profileOf (p : String) : String :=
  let base := baseNameFull p
  match base.splitOn "." with
  | [] => base
  | [x] => x
  | parts => String.intercalate "." parts.dropLast

/-- The per-file output path (src/lib/batch.js lines 90-94 and
204-208): the input itself when overwriting, `outputDir/basename`
when an output directory is given, the adjacent `.converted.yaml`
file otherwise. -/
def outPath (overwrite : Bool) (outputDir : Option String) (file : String) : String :=
  if overwrite then file
  else
    match outputDir with
    | some d => d ++ "/" ++ baseNameFull file
    | none => file ++ ".converted.yaml"

/-- One entry of the result array: `input`/`output` are present or not
exactly as in the corresponding object literals of the source, and
`error` carries the recorded message of a failed entry. -/
structure FileOutcome : Type where
  input : Option String
  output : Option String
  error : Option String
  success : Bool
deriving DecidableEq, Repr

/-- The file-system and timing environment a batch run interacts
with: the routine script (as read from `scriptPath` and compiled),
the glob match, directory creation, per-file YAML reading
(`readFileSync` + `yaml.load`, an error being either an unreadable
file or invalid YAML), per-file writing, and the elapsed time the
sandbox deadline check observes. -/
structure BatchEnv : Type where
  script : Except String SandboxScript
  files : Except String (List String)
  mkdirResult : Except String Unit
  readYaml : String → Except String JSVal
  write : String → Except String Unit
  elapsed : Nat

/-- Options of a batch run (`overwrite` and `outputDir`). -/
structure BatchOpts : Type where
  overwrite : Bool
  outputDir : Option String

/-- Processing of a single file in the sequential loop (src/lib/batch.js
lines 71-123): read and parse the file, run `executeScript` with the
base file name as profile name, dump and write the result; any failure
yields an `{input, error, success: false}` entry, success yields
`{input, output, success: true}`. -/
def processFileSeq (env : BatchEnv) (opts : BatchOpts) (script : SandboxScript)
    (file : String) : FileOutcome :=
  match env.readYaml file with
  | .error msg => ⟨some file, none, some ("读取或解析文件失败: " ++ msg), false⟩
  | .ok config =>
    match executeScript config script (profileOf file) env.elapsed with
    | .error _ => ⟨some file, none, some "脚本执行失败", false⟩
    | .ok processed =>
      match serialize processed with
      | none => ⟨some file, none, some "写入结果失败", false⟩
      | some _ =>
        match env.write (outPath opts.overwrite opts.outputDir file) with
        | .error msg => ⟨some file, none, some ("写入结果失败: " ++ msg), false⟩
        | .ok () =>
          ⟨some file, some (outPath opts.overwrite opts.outputDir file), none, true⟩

/-- The sequential loop of lines 64-124: `processedFiles` is the set
of already-processed files, a file already in it is skipped. -/
def batchLoop (env : BatchEnv) (opts : BatchOpts) (script : SandboxScript)
    (seen : List String) : List String → List FileOutcome
  | [] => []
  | f :: rest =>
    if f ∈ seen then batchLoop env opts script seen rest
    else processFileSeq env opts script f :: batchLoop env opts script (f :: seen) rest

/-- First-occurrence deduplication with an accumulator of already
seen paths, mirroring the `processedFiles` set of the loop. -/
def dedupAux (seen : List String) : List String → List String
  | [] => []
  | f :: rest =>
    if f ∈ seen then dedupAux seen rest
    else f :: dedupAux (f :: seen) rest

/-- The unique matched paths, in first-occurrence order. -/
def dedupFiles (files : List String) : List String := dedupAux [] files

/-- The function `batchProcess(options)` from src/lib/batch.js lines 17-134. The
outer try/catch turns a script-read, glob, or mkdir failure into the
single severe-error entry `\x7berror, success: false\x7d` (no input
field); an empty match returns an empty result; otherwise each not yet
processed file is processed in order, failures recorded per file. The
mkdir step only runs when not overwriting and an output directory was
given. -/
def batchProcess (env : BatchEnv) (opts : BatchOpts) : List FileOutcome :=
  match env.script with
  | .error msg => [⟨none, none, some ("无法读取脚本文件: " ++ msg), false⟩]
  | .ok script =>
    match env.files with
    | .error msg => [⟨none, none, some ("无效的文件模式: " ++ msg), false⟩]
    | .ok files =>
      if files.isEmpty then []
      else
        match (if !opts.overwrite && opts.outputDir.isSome then env.mkdirResult else .ok ()) with
        | .error msg => [⟨none, none, some ("无法创建输出目录: " ++ msg), false⟩]
        | .ok () => batchLoop env opts script [] files

/-- Processing of a single file in the parallel variant
(src/lib/batch.js lines 191-234): same steps as `processFileSeq`, but
the whole body sits under one catch, so the recorded message is the
raw failure message. -/
def processFilePar (env : BatchEnv) (opts : BatchOpts) (script : SandboxScript)
    (file : String) : FileOutcome :=
  match env.readYaml file with
  | .error msg => ⟨some file, none, some msg, false⟩
  | .ok config =>
    match executeScript config script (profileOf file) env.elapsed with
    | .error _ => ⟨some file, none, some "脚本执行失败", false⟩
    | .ok processed =>
      match serialize processed with
      | none => ⟨some file, none, some "写入结果失败", false⟩
      | some _ =>
        match env.write (outPath opts.overwrite opts.outputDir file) with
        | .error msg => ⟨some file, none, some msg, false⟩
        | .ok () =>
          ⟨some file, some (outPath opts.overwrite opts.outputDir file), none, true⟩

/-- The grouping loop of lines 185-188: `files.slice(i, i + c)` for
`i = 0, c, 2c, ...`.  Defined with a fuel argument so that it reduces
by kernel computation; `files.length` steps always suffice when
`c > 0`.  The source loop does not terminate when `concurrency = 0`;
that case is not modelled (the result is `[]`). -/
def sliceGroupsAux (c : Nat) : Nat → List String → List (List String)
  | 0, _ => []
  | _, [] => []
  | fuel + 1, xs => xs.take c :: sliceGroupsAux c fuel (xs.drop c)

/-- The file groups of size `concurrency` processed batch by batch. -/
def sliceGroups (c : Nat) (xs : List String) : List (List String) :=
  if c = 0 then [] else sliceGroupsAux c xs.length xs

/-- The function `batchProcessParallel(options)` from src/lib/batch.js lines
142-245.  No outer catch: a script-read, glob, or mkdir failure
rejects the whole call (`Except.error`).  The matched file list is
processed group by group WITHOUT the `processedFiles` deduplication of
the sequential variant; each group contributes one outcome per listed
file, in order. -/
def batchProcessParallel (env : BatchEnv) (opts : BatchOpts) (concurrency : Nat) :
    Except String (List FileOutcome) :=
  match env.script with
  | .error msg => .error ("无法读取脚本文件: " ++ msg)
  | .ok script =>
    match env.files with
    | .error msg => .error ("无效的文件模式: " ++ msg)
    | .ok files =>
      if files.isEmpty then .ok []
      else
        match (if !opts.overwrite && opts.outputDir.isSome then env.mkdirResult else .ok ()) with
        | .error msg => .error ("无法创建输出目录: " ++ msg)
        | .ok () =>
          .ok ((sliceGroups concurrency files).map
            (fun group => group.map (processFilePar env opts script))).flatten

/-! ## Reference heap model for the deep copy (src/lib/batch.js line 282)

The tree model above cannot express in-place mutation, so the
deep-copy isolation of `executeScript` is proved against a small
reference-semantics model: a heap of JavaScript nodes addressed by
natural numbers.  `JSON.parse(JSON.stringify(config))` allocates a
fresh isomorphic copy of the config graph; fresh addresses are
modelled as the addresses at or above an allocation frontier `off`
that lies strictly above every address of the caller heap. -/

/-- A heap address. -/
abbrev Addr := Nat

/-- One heap node: a primitive, an array of references, or an object
whose field values are references. -/
inductive HNode : Type where
  | hnull : HNode
  | hbool (b : Bool) : HNode
  | hnum (q : Rat) : HNode
  | hstr (s : String) : HNode
  | harr (elems : List Addr) : HNode
  | hobj (fields : List (String × Addr)) : HNode

/-- The addresses a node refers to. -/
def HNode.targets : HNode → List Addr
  | .harr es => es
  | .hobj fs => fs.map Prod.snd
  | _ => []

/-- Relocate every reference of a node by `off`. -/
def HNode.shift (off : Nat) : HNode → HNode
  | .harr es => .harr (es.map (· + off))
  | .hobj fs => .hobj (fs.map (fun kv => (kv.1, kv.2 + off)))
  | n => n

/-- A heap: a partial map from addresses to nodes. -/
abbrev Heap := Addr → Option HNode

/-- The heap after `JSON.parse(JSON.stringify(·))` has materialised a
fresh copy: the old nodes are untouched, and for every old node at
`a` a relocated twin lives at `a + off`.  With `off` above every
allocated address of the original heap the copy shares no address
with the original. -/
def copyHeap (h : Heap) (off : Nat) : Heap :=
  fun a => if a < off then h a else (h (a - off)).map (HNode.shift off)

/-- Turn a plain list of values into a `JSList`. -/
def JSList.ofList : List JSVal → JSList
  | [] => .nil
  | x :: xs => .cons x (JSList.ofList xs)

/-- Turn a plain field list into `JSFields`. -/
def JSFields.ofList : List (String × JSVal) → JSFields
  | [] => .nil
  | (k, v) :: fs => .cons k v (JSFields.ofList fs)

/-- Materialise the value graph rooted at `a` as a tree, with a fuel
bound on the depth (`none` when the fuel runs out or the address is
unallocated; a dangling reference reads as `undefined`). -/
def readVal (h : Heap) : Nat → Addr → Option JSVal
  | 0, _ => none
  | fuel + 1, a =>
    match h a with
    | none => none
    | some .hnull => some .jnull
    | some (.hbool b) => some (.jbool b)
    | some (.hnum q) => some (.jnum q)
    | some (.hstr s) => some (.jstr s)
    | some (.harr es) =>
      some (.jarr (JSList.ofList (es.map (fun b => (readVal h fuel b).getD .undefined))))
    | some (.hobj fs) =>
      some (.jobj (JSFields.ofList (fs.map (fun kv => (kv.1, (readVal h fuel kv.2).getD .undefined)))))

/-- The addresses reachable from `root` by following references. -/
inductive Reaches (h : Heap) (root : Addr) : Addr → Prop where
  | refl : Reaches h root root
  | step {a b : Addr} {v : HNode} :
      Reaches h root a → h a = some v → b ∈ v.targets → Reaches h root b

/-- A routine as a heap transformer: it receives the heap, the address
of the config object it was handed and the profile name, and leaves a
final heap (whether it returned normally or threw). -/
def HRoutine : Type := Heap → Addr → String → Heap

/-- A JavaScript routine cannot forge references: every address whose
content it changes is either reachable from the object it received or
was unallocated (a fresh allocation of its own). -/
def WritesWithin (routine : HRoutine) : Prop :=
  ∀ (g : Heap) (r : Addr) (pn : String) (a : Addr),
    routine g r pn a ≠ g a → Reaches g r a ∨ g a = none

/-- The heap-level view of `executeScript` lines 280-320: make the
deep copy (fresh addresses at and above the frontier `off`), hand the
copy root to the routine, and return the heap the routine leaves
behind. -/
def executeScriptHeap (h : Heap) (root : Addr) (off : Nat) (routine : HRoutine)
    (profileName : String) : Heap :=
  routine (copyHeap h off) (root + off) profileName

/-! ## Theorems -/

/-- The port fields checked by the validator, in source order. -/
def portFields : List String := ["port", "socks-port", "mixed-port"]

/-- The sequence fields checked by the validator, in source order. -/
def seqFields : List String := ["rules", "proxies", "proxy-groups"]

/-- What strict validation actually accepts: each sequence field, when
truthy, is an array; each port field, when not `undefined`, is a
number (integer or not) between 0 and 65535; `mode`, when truthy, is
one of the three allowed strings. -/
def StrictOk (c : JSVal) : Prop :=
  (∀ f ∈ seqFields, jsTruthy (getField c f) = true → isArrayVal (getField c f) = true) ∧
  (∀ f ∈ portFields, getField c f ≠ .undefined →
      ∃ q : Rat, getField c f = .jnum q ∧ 0 ≤ q ∧ q ≤ 65535) ∧
  (jsTruthy (getField c "mode") = true → modeOk (getField c "mode") = true)

lemma badPortField_eq_false_iff (c : JSVal) (f : String) :
    badPortField c f = false ↔
      (getField c f = .undefined ∨ ∃ q : Rat, getField c f = .jnum q ∧ 0 ≤ q ∧ q ≤ 65535) := by
  unfold badPortField
  cases h : getField c f with
  | jnum q =>
    simp only [h, Bool.or_eq_false_iff, decide_eq_false_iff_not, not_lt]
    constructor
    · intro ⟨h1, h2⟩
      exact Or.inr ⟨q, rfl, h1, h2⟩
    · intro hx
      rcases hx with hx | ⟨q', hq', h1, h2⟩
      · cases hx
      · cases hq'
        exact ⟨h1, h2⟩
  | undefined => simp [h]
  | jnull => simp [h]
  | jbool b => simp [h]
  | jstr s => simp [h]
  | jfunc => simp [h]
  | jdate s => simp [h]
  | jarr xs => simp [h]
  | jobj fs => simp [h]

/-- Every error of `validateConfig` is one of its own four shapes; in
particular the validator never raises the sandbox errors. -/
lemma validateConfig_error_shape (c : JSVal) (b : Bool) (e : ScriptError)
    (h : validateConfig c b = .error e) :
    e = .looseInvalid ∨ (∃ f, e = .notArray f) ∨ (∃ f, e = .badPort f) ∨ e = .badMode := by
  unfold validateConfig at h
  split_ifs at h <;> simp_all <;> simp [← h]

lemma loose_guard_false {c : JSVal} (hl : validateConfig c false = .ok ()) :
    (!jsTruthy c || typeofStr c != "object") = false := by
  by_contra hne
  have hb : (!jsTruthy c || typeofStr c != "object") = true := by
    cases hx : (!jsTruthy c || typeofStr c != "object")
    · exact absurd hx hne
    · rfl
  rw [validateConfig, if_pos hb] at hl
  cases hl

lemma bool_eq_false {b : Bool} (h : ¬(b = true)) : b = false := by
  cases hx : b
  · rfl
  · exact absurd hx h


/-- C3 (amended).  For every routine output config that is a non-null
object, strict validation succeeds if and only if: each of `rules`,
`proxies`, `proxy-groups` is an ordered sequence WHENEVER its value is
truthy (a present falsy value such as `0` is accepted); each of
`port`, `socks-port`, `mixed-port`, when not `undefined`, is a number
(not necessarily an integer) in [0, 65535]; and `mode`, when truthy,
is one of `rule`, `global`, `direct`.  Every violation fails with an
error naming the offending field. -/
theorem c3_strict_validation_characterization (c : JSVal)
    (hl : validateConfig c false = .ok ()) :
    (validateConfig c true = .ok () ↔ StrictOk c) ∧
    (∀ f, validateConfig c true = .error (.badPort f) →
        f ∈ portFields ∧ badPortField c f = true) ∧
    (∀ f, validateConfig c true = .error (.notArray f) →
        f ∈ seqFields ∧ jsTruthy (getField c f) = true ∧
          isArrayVal (getField c f) = false) := by
  have hguard := loose_guard_false hl
  have hrw : validateConfig c true =
      (if jsTruthy (getField c "rules") && !isArrayVal (getField c "rules") then
         (.error (.notArray "rules") : Except ScriptError Unit)
       else if jsTruthy (getField c "proxies") && !isArrayVal (getField c "proxies") then
         .error (.notArray "proxies")
       else if jsTruthy (getField c "proxy-groups") && !isArrayVal (getField c "proxy-groups") then
         .error (.notArray "proxy-groups")
       else if badPortField c "port" then .error (.badPort "port")
       else if badPortField c "socks-port" then .error (.badPort "socks-port")
       else if badPortField c "mixed-port" then .error (.badPort "mixed-port")
       else if jsTruthy (getField c "mode") && !modeOk (getField c "mode") then .error .badMode
       else .ok ()) := by
    rw [validateConfig, if_neg (by simp [hguard]), if_neg (by simp)]
  rw [hrw]
  split_ifs with h1 h2 h3 h4 h5 h6 h7
  · -- rules not an array
    rw [Bool.and_eq_true, Bool.not_eq_true'] at h1
    refine ⟨?_, ?_, ?_⟩
    · constructor
      · intro he
        simp at he
      · intro hs
        rw [hs.1 "rules" (by simp [seqFields]) h1.1] at h1
        exact Bool.noConfusion h1.2
    · intro f he
      simp at he
    · intro f he
      simp only [Except.error.injEq, ScriptError.notArray.injEq] at he
      subst he
      exact ⟨by simp [seqFields], h1.1, h1.2⟩
  · -- proxies not an array
    rw [Bool.and_eq_true, Bool.not_eq_true'] at h2
    refine ⟨?_, ?_, ?_⟩
    · constructor
      · intro he
        simp at he
      · intro hs
        rw [hs.1 "proxies" (by simp [seqFields]) h2.1] at h2
        exact Bool.noConfusion h2.2
    · intro f he
      simp at he
    · intro f he
      simp only [Except.error.injEq, ScriptError.notArray.injEq] at he
      subst he
      exact ⟨by simp [seqFields], h2.1, h2.2⟩
  · -- proxy-groups not an array
    rw [Bool.and_eq_true, Bool.not_eq_true'] at h3
    refine ⟨?_, ?_, ?_⟩
    · constructor
      · intro he
        simp at he
      · intro hs
        rw [hs.1 "proxy-groups" (by simp [seqFields]) h3.1] at h3
        exact Bool.noConfusion h3.2
    · intro f he
      simp at he
    · intro f he
      simp only [Except.error.injEq, ScriptError.notArray.injEq] at he
      subst he
      exact ⟨by simp [seqFields], h3.1, h3.2⟩
  · -- port out of range or not a number
    have hnot : ¬(getField c "port" = .undefined ∨
        ∃ q : Rat, getField c "port" = .jnum q ∧ 0 ≤ q ∧ q ≤ 65535) := fun hx => by
      rw [(badPortField_eq_false_iff c "port").mpr hx] at h4
      exact Bool.noConfusion h4
    refine ⟨?_, ?_, ?_⟩
    · constructor
      · intro he
        simp at he
      · intro hs
        by_cases hu : getField c "port" = .undefined
        · exact absurd (Or.inl hu) hnot
        · exact absurd (Or.inr (hs.2.1 "port" (by simp [portFields]) hu)) hnot
    · intro f he
      simp only [Except.error.injEq, ScriptError.badPort.injEq] at he
      subst he
      exact ⟨by simp [portFields], h4⟩
    · intro f he
      simp at he
  · -- socks-port out of range or not a number
    have hnot : ¬(getField c "socks-port" = .undefined ∨
        ∃ q : Rat, getField c "socks-port" = .jnum q ∧ 0 ≤ q ∧ q ≤ 65535) := fun hx => by
      rw [(badPortField_eq_false_iff c "socks-port").mpr hx] at h5
      exact Bool.noConfusion h5
    refine ⟨?_, ?_, ?_⟩
    · constructor
      · intro he
        simp at he
      · intro hs
        by_cases hu : getField c "socks-port" = .undefined
        · exact absurd (Or.inl hu) hnot
        · exact absurd (Or.inr (hs.2.1 "socks-port" (by simp [portFields]) hu)) hnot
    · intro f he
      simp only [Except.error.injEq, ScriptError.badPort.injEq] at he
      subst he
      exact ⟨by simp [portFields], h5⟩
    · intro f he
      simp at he
  · -- mixed-port out of range or not a number
    have hnot : ¬(getField c "mixed-port" = .undefined ∨
        ∃ q : Rat, getField c "mixed-port" = .jnum q ∧ 0 ≤ q ∧ q ≤ 65535) := fun hx => by
      rw [(badPortField_eq_false_iff c "mixed-port").mpr hx] at h6
      exact Bool.noConfusion h6
    refine ⟨?_, ?_, ?_⟩
    · constructor
      · intro he
        simp at he
      · intro hs
        by_cases hu : getField c "mixed-port" = .undefined
        · exact absurd (Or.inl hu) hnot
        · exact absurd (Or.inr (hs.2.1 "mixed-port" (by simp [portFields]) hu)) hnot
    · intro f he
      simp only [Except.error.injEq, ScriptError.badPort.injEq] at he
      subst he
      exact ⟨by simp [portFields], h6⟩
    · intro f he
      simp at he
  · -- bad mode
    rw [Bool.and_eq_true, Bool.not_eq_true'] at h7
    refine ⟨?_, ?_, ?_⟩
    · constructor
      · intro he
        simp at he
      · intro hs
        rw [hs.2.2 h7.1] at h7
        exact Bool.noConfusion h7.2
    · intro f he
      simp at he
    · intro f he
      simp at he
  · -- all checks pass
    have seqOf : ∀ fld : String,
        ¬((jsTruthy (getField c fld) && !isArrayVal (getField c fld)) = true) →
        jsTruthy (getField c fld) = true → isArrayVal (getField c fld) = true := by
      intro fld hcond htr
      by_contra harr
      exact hcond (by rw [htr, bool_eq_false harr]; rfl)
    have portOf : ∀ fld : String, ¬(badPortField c fld = true) →
        getField c fld ≠ .undefined →
        ∃ q : Rat, getField c fld = .jnum q ∧ 0 ≤ q ∧ q ≤ 65535 := by
      intro fld hcond hne
      rcases (badPortField_eq_false_iff c fld).mp (bool_eq_false hcond) with hu | hq
      · exact absurd hu hne
      · exact hq
    refine ⟨?_, ?_, ?_⟩
    · constructor
      · intro _
        refine ⟨?_, ?_, ?_⟩
        · intro f hf
          simp only [seqFields, List.mem_cons, List.not_mem_nil, or_false] at hf
          rcases hf with rfl | rfl | rfl
          · exact seqOf _ h1
          · exact seqOf _ h2
          · exact seqOf _ h3
        · intro f hf
          simp only [portFields, List.mem_cons, List.not_mem_nil, or_false] at hf
          rcases hf with rfl | rfl | rfl
          · exact portOf _ h4
          · exact portOf _ h5
          · exact portOf _ h6
        · intro htr
          by_contra hmode
          exact h7 (by rw [htr, bool_eq_false hmode]; rfl)
      · intro _
        rfl
    · intro f he
      simp at he
    · intro f he
      simp at he

/-- C3 counterexample.  The claim states that strict validation fails
whenever a present port field is not an INTEGER in range and whenever
a present `rules` value is not a sequence; the code accepts the
non-integer port 1/2 and the present-but-falsy `rules: 0`. -/
theorem c3_claim_counterexample :
    validateConfig (.jobj (.cons "port" (.jnum ratHalf) .nil)) true = .ok () ∧
    validateConfig (.jobj (.cons "rules" (.jnum 0) .nil)) true = .ok () :=
  ⟨rfl, rfl⟩

/-- C3 witness: the characterization applied to the config
`\x7bport: 70000\x7d`, which fails strict validation naming `port`. -/
theorem c3_strict_validation_characterization_witness :
    validateConfig (.jobj (.cons "port" (.jnum 70000) .nil)) false = .ok () ∧
    (validateConfig (.jobj (.cons "port" (.jnum 70000) .nil)) true = .ok () ↔
      StrictOk (.jobj (.cons "port" (.jnum 70000) .nil))) ∧
    validateConfig (.jobj (.cons "port" (.jnum 70000) .nil)) true =
      .error (.badPort "port") :=
  ⟨rfl,
    (c3_strict_validation_characterization
      (.jobj (.cons "port" (.jnum 70000) .nil)) rfl).1, rfl⟩

lemma executeScript_reached (config : JSVal) (s : SandboxScript) (pn : String)
    (elapsed : Nat) (v : JSVal)
    (hl : validateConfig config false = .ok ())
    (hm : hasMainDecl s.source = true)
    (hc : s.compileOk = true)
    (hr : s.run (configCopy config) pn = .ret v) :
    executeScript config s pn elapsed =
      (if timeoutMs - 1000 < elapsed then .error .timeout
       else if !jsTruthy v || typeofStr v != "object" then .error .invalidReturn
       else match validateConfig v true with
         | .error e => .error e
         | .ok () => .ok v) := by
  unfold executeScript
  rw [hl, hm, hc, hr]
  simp only [Bool.not_true, Bool.false_eq_true, if_false, hasTimedOutAtCheck]

/-- After `main` has returned `v` and the deadline check has passed,
the executor either succeeds with `v`, raises the invalid-return
error, or propagates a strict-validation error of `v`. -/
lemma post_return_shape (v : JSVal) :
    (if !jsTruthy v || typeofStr v != "object" then
        (.error .invalidReturn : Except ScriptError JSVal)
     else match validateConfig v true with
       | .error e => .error e
       | .ok () => .ok v) = .ok v ∨
    (if !jsTruthy v || typeofStr v != "object" then
        (.error .invalidReturn : Except ScriptError JSVal)
     else match validateConfig v true with
       | .error e => .error e
       | .ok () => .ok v) = .error .invalidReturn ∨
    ∃ e, (if !jsTruthy v || typeofStr v != "object" then
        (.error .invalidReturn : Except ScriptError JSVal)
     else match validateConfig v true with
       | .error e => .error e
       | .ok () => .ok v) = .error e ∧ validateConfig v true = .error e := by
  by_cases hcond : (!jsTruthy v || typeofStr v != "object") = true
  · rw [if_pos hcond]
    exact Or.inr (Or.inl rfl)
  · rw [if_neg hcond]
    cases hv : validateConfig v true with
    | ok u =>
      cases u
      exact Or.inl rfl
    | error e =>
      exact Or.inr (Or.inr ⟨e, rfl, rfl⟩)

/-- C4 (amended).  When the routine returns a value `v` within the
deadline, the call fails with the invalid-return error exactly when
`v` is falsy or not of JavaScript object type.  `null`, numbers,
strings, booleans, `undefined` and functions are rejected this way; a
sequence (array) is a truthy object, is NOT rejected, and proceeds to
strict validation. -/
theorem c4_invalid_return_characterization (config : JSVal) (s : SandboxScript)
    (pn : String) (elapsed : Nat) (v : JSVal)
    (hl : validateConfig config false = .ok ())
    (hm : hasMainDecl s.source = true)
    (hc : s.compileOk = true)
    (hr : s.run (configCopy config) pn = .ret v)
    (ht : elapsed ≤ timeoutMs - 1000) :
    executeScript config s pn elapsed = .error .invalidReturn ↔
      (jsTruthy v = false ∨ typeofStr v ≠ "object") := by
  rw [executeScript_reached config s pn elapsed v hl hm hc hr,
    if_neg (Nat.not_lt.mpr ht)]
  by_cases hcond : (!jsTruthy v || typeofStr v != "object") = true
  · rw [if_pos hcond]
    simp only [true_iff, eq_self_iff_true]
    simpa only [Bool.or_eq_true, Bool.not_eq_true', bne_iff_ne] using hcond
  · rw [if_neg hcond]
    have hcond' := Bool.or_eq_false_iff.mp (bool_eq_false hcond)
    have htr : jsTruthy v = true := by
      have := hcond'.1
      rwa [Bool.not_eq_false'] at this
    have hty : typeofStr v = "object" := bne_eq_false_iff_eq.mp hcond'.2
    constructor
    · intro he
      cases hv : validateConfig v true with
      | ok u =>
        cases u
        rw [hv] at he
        simp at he
      | error e =>
        rw [hv] at he
        simp only [Except.error.injEq] at he
        rw [he] at hv
        rcases validateConfig_error_shape v true _ hv with h | ⟨f, h⟩ | ⟨f, h⟩ | h <;>
          exact ScriptError.noConfusion h
    · intro hx
      rcases hx with hx | hx
      · rw [htr] at hx
        exact Bool.noConfusion hx
      · exact absurd hty hx

/-- C4 counterexample.  The claim states that a routine returning a
sequence fails with the invalid-return error; in the code an array is
a truthy value of type object, passes the return check and the strict
validator, and the call succeeds with the array as its result. -/
theorem c4_claim_counterexample :
    executeScript (.jobj .nil)
      ⟨"function main(c)\x7breturn []\x7d", true, fun _ _ => .ret (.jarr .nil)⟩
      "p" 0 = .ok (.jarr .nil) := rfl

/-- C4 witness: the characterization applied to a routine returning
the number 5, which is rejected with the invalid-return error. -/
theorem c4_invalid_return_characterization_witness :
    validateConfig (.jobj .nil) false = .ok () ∧
    hasMainDecl "function main(c)\x7breturn 5\x7d" = true ∧
    (executeScript (.jobj .nil)
        ⟨"function main(c)\x7breturn 5\x7d", true, fun _ _ => .ret (.jnum 5)⟩ "p" 0 =
          .error .invalidReturn ↔
      (jsTruthy (.jnum 5) = false ∨ typeofStr (.jnum 5) ≠ "object")) :=
  ⟨rfl, rfl,
    c4_invalid_return_characterization (.jobj .nil)
      ⟨"function main(c)\x7breturn 5\x7d", true, fun _ _ => .ret (.jnum 5)⟩
      "p" 0 (.jnum 5) rfl rfl rfl rfl (by decide)⟩

/-- C5.  On a config that passes the loose check, a routine source
without the text `function main` fails with the missing-entry-point
error no matter how the routine would compile or behave (the check
precedes `new Function`); a source containing that text never
produces the missing-entry-point error. -/
theorem c5_missing_main_fast_fail (config : JSVal) (s : SandboxScript) (pn : String)
    (elapsed : Nat) (hl : validateConfig config false = .ok ()) :
    (hasMainDecl s.source = false →
        executeScript config s pn elapsed = .error .missingMain) ∧
    (hasMainDecl s.source = true →
        executeScript config s pn elapsed ≠ .error .missingMain) := by
  constructor
  · intro hm
    unfold executeScript
    rw [hl, hm]
    simp
  · intro hm
    unfold executeScript
    rw [hl, hm]
    simp only [Bool.not_true, Bool.false_eq_true, if_false]
    cases hc : s.compileOk with
    | false => simp
    | true =>
      simp only [Bool.not_true, Bool.false_eq_true, if_false]
      cases hr : s.run (configCopy config) pn with
      | throws msg => simp
      | ret v =>
        dsimp only
        by_cases ht : timeoutMs - 1000 < elapsed
        · rw [if_pos ht]
          simp
        · rw [if_neg ht]
          simp only [hasTimedOutAtCheck, Bool.false_eq_true, if_false]
          rcases post_return_shape v with h | h | ⟨e, h, hv⟩ <;> rw [h]
          · simp
          · simp
          · intro he
            simp only [Except.error.injEq] at he
            rw [he] at hv
            rcases validateConfig_error_shape v true _ hv with hx | ⟨f, hx⟩ | ⟨f, hx⟩ | hx <;>
              exact ScriptError.noConfusion hx

/-- C5 witness: a source without the text `function main` fails with
the missing-entry-point error, and one with it does not. -/
theorem c5_missing_main_fast_fail_witness :
    validateConfig (.jobj .nil) false = .ok () ∧
    hasMainDecl "const x = 1" = false ∧
    executeScript (.jobj .nil) ⟨"const x = 1", true, fun c _ => .ret c⟩ "p" 0 =
      .error .missingMain :=
  ⟨rfl, rfl,
    (c5_missing_main_fast_fail (.jobj .nil) ⟨"const x = 1", true, fun c _ => .ret c⟩
      "p" 0 rfl).1 rfl⟩

/-- C6 (amended).  The 10 s budget timer of line 292 is started before
invocation, but its flag cannot be observed by the synchronous check
of line 326 (the callback only runs once control returns to the event
loop).  The deadline re-check that actually runs right after `main`
returns (line 315, generated at line 301) uses the threshold
`timeoutMs - 1000` = 9 s: when the elapsed wall-clock time exceeds
9 s the call fails with the timeout error even though a result was
produced, and when it is at most 9 s the call is never rejected for
timeout. -/
theorem c6_post_return_deadline (config : JSVal) (s : SandboxScript) (pn : String)
    (elapsed : Nat) (v : JSVal)
    (hl : validateConfig config false = .ok ())
    (hm : hasMainDecl s.source = true)
    (hc : s.compileOk = true)
    (hr : s.run (configCopy config) pn = .ret v) :
    executeScript config s pn elapsed = .error .timeout ↔
      timeoutMs - 1000 < elapsed := by
  rw [executeScript_reached config s pn elapsed v hl hm hc hr]
  by_cases ht : timeoutMs - 1000 < elapsed
  · rw [if_pos ht]
    simp [ht]
  · rw [if_neg ht]
    simp only [ht, iff_false]
    rcases post_return_shape v with h | h | ⟨e, h, hv⟩ <;> rw [h]
    · simp
    · simp
    · intro he
      simp only [Except.error.injEq] at he
      rw [he] at hv
      rcases validateConfig_error_shape v true _ hv with hx | ⟨f, hx⟩ | ⟨f, hx⟩ | hx <;>
        exact ScriptError.noConfusion hx

/-- C6 counterexample.  At 9.5 s of elapsed time — strictly within the
10 s budget the claim names — the post-return check already rejects
the call with the timeout error, because the generated check compares
against `timeoutMs - 1000` = 9000 ms, not against the 10 s budget. -/
theorem c6_claim_counterexample :
    9500 ≤ timeoutMs ∧
    executeScript (.jobj .nil)
      ⟨"function main(c)\x7breturn c\x7d", true, fun _ _ => .ret (.jobj .nil)⟩
      "" 9500 = .error .timeout :=
  ⟨by decide, rfl⟩

/-- C6 witness: the amended deadline characterization applied at
9001 ms elapsed (rejected) with a routine that returned normally. -/
theorem c6_post_return_deadline_witness :
    validateConfig (.jobj .nil) false = .ok () ∧
    (executeScript (.jobj .nil)
        ⟨"function main(c)\x7breturn c\x7d", true, fun _ _ => .ret (.jobj .nil)⟩
        "x" 9001 = .error .timeout ↔ timeoutMs - 1000 < 9001) :=
  ⟨rfl,
    c6_post_return_deadline (.jobj .nil)
      ⟨"function main(c)\x7breturn c\x7d", true, fun _ _ => .ret (.jobj .nil)⟩
      "x" 9001 (.jobj .nil) rfl rfl rfl rfl⟩

/-- C2.  With `useCache = false` the returned result is the same for
every cache state (the cache is never consulted), and a failed live
request yields the download error carrying the source URL.  With
`useCache = true`: a failed live request with no cached body yields
the same download error; with a cached body it returns the cached
body — reinterpreted by `JSON.parse` when it looks like JSON, a parse
failure being the terminal cache-corrupt error — together with the
cached headers; and a successful live request always returns the live
content and headers, never cached data. -/
theorem c2_fetch_cache_fallback (codec : JsonCodec) (url : String)
    (live : LiveResult) (cache cache' : CacheState) (msg : String) (body : String) :
    ((downloadSubscription codec url false live cache).1 =
      (downloadSubscription codec url false live cache').1) ∧
    (live = .fail msg →
      (downloadSubscription codec url false live cache).1 =
        .error (.downloadFail url)) ∧
    (live = .fail msg → cache.body = none →
      (downloadSubscription codec url true live cache).1 =
        .error (.downloadFail url)) ∧
    (live = .fail msg → cache.body = some body → jsonLooking body = false →
      (downloadSubscription codec url true live cache).1 =
        .ok (.jstr body, cachedHeaders cache)) ∧
    (live = .fail msg → cache.body = some body → jsonLooking body = true →
      codec.parse body = none →
      (downloadSubscription codec url true live cache).1 =
        .error (.cacheCorrupt url)) ∧
    (∀ v, live = .fail msg → cache.body = some body → jsonLooking body = true →
      codec.parse body = some v →
      (downloadSubscription codec url true live cache).1 =
        .ok (v, cachedHeaders cache)) ∧
    (∀ content headers, live = .ok content headers →
      (downloadSubscription codec url true live cache).1 = .ok (content, headers)) := by
  refine ⟨?_, ?_, ?_, ?_, ?_, ?_, ?_⟩
  · cases live with
    | ok content headers => rfl
    | fail m => rfl
  · rintro rfl
    rfl
  · rintro rfl hb
    unfold downloadSubscription
    rw [hb]
    rfl
  · rintro rfl hb hj
    unfold downloadSubscription
    rw [hb]
    simp only [hj, Bool.false_eq_true, if_false, if_true]
  · rintro rfl hb hj hp
    unfold downloadSubscription
    rw [hb]
    simp only [hj, if_true, hp]
  · rintro v rfl hb hj hp
    unfold downloadSubscription
    rw [hb]
    simp only [hj, if_true, hp]
  · rintro content headers rfl
    rfl

/-- C2 witness: a failed live request with `useCache = true` and a
cached non-JSON body returns that body with the cached headers. -/
theorem c2_fetch_cache_fallback_witness :
    (downloadSubscription ⟨fun _ => "", fun _ => none⟩ "http://u" true
        (.fail "boom") ⟨some "proxies: []", none⟩).1 =
      .ok (.jstr "proxies: []", cachedHeaders ⟨some "proxies: []", none⟩) ∧
    (downloadSubscription ⟨fun _ => "", fun _ => none⟩ "http://u" false
        (.fail "boom") ⟨some "proxies: []", none⟩).1 =
      .error (.downloadFail "http://u") :=
  ⟨(c2_fetch_cache_fallback ⟨fun _ => "", fun _ => none⟩ "http://u"
      (.fail "boom") ⟨some "proxies: []", none⟩ ⟨some "proxies: []", none⟩
      "boom" "proxies: []").2.2.2.1 rfl rfl rfl,
   (c2_fetch_cache_fallback ⟨fun _ => "", fun _ => none⟩ "http://u"
      (.fail "boom") ⟨some "proxies: []", none⟩ ⟨some "proxies: []", none⟩
      "boom" "proxies: []").2.1 rfl⟩

mutual

theorem parseDoc_serialize : ∀ (v : JSVal) (d : YamlDoc),
    serialize v = some d → parseDoc d = v
  | .undefined, _, h => by simp only [serialize] at h; cases h
  | .jfunc, _, h => by simp only [serialize] at h; cases h
  | .jnull, d, h => by
    simp only [serialize] at h
    cases h
    rfl
  | .jbool b, d, h => by
    simp only [serialize] at h
    cases h
    rfl
  | .jnum q, d, h => by
    simp only [serialize] at h
    cases h
    rfl
  | .jstr s, d, h => by
    simp only [serialize] at h
    cases h
    rfl
  | .jdate iso, d, h => by
    simp only [serialize] at h
    cases h
    rfl
  | .jarr xs, d, h => by
    simp only [serialize] at h
    cases hys : serializeList xs with
    | none => rw [hys] at h; cases h
    | some ys =>
      rw [hys] at h
      cases h
      show JSVal.jarr (parseList ys) = JSVal.jarr xs
      rw [parseList_serialize xs ys hys]
  | .jobj fs, d, h => by
    simp only [serialize] at h
    cases hgs : serializeFields fs with
    | none => rw [hgs] at h; cases h
    | some gs =>
      rw [hgs] at h
      cases h
      show JSVal.jobj (parseFields gs) = JSVal.jobj fs
      rw [parseFields_serialize fs gs hgs]

theorem parseList_serialize : ∀ (xs : JSList) (ys : YamlList),
    serializeList xs = some ys → parseList ys = xs
  | .nil, ys, h => by
    simp only [serializeList] at h
    cases h
    rfl
  | .cons x xs, ys, h => by
    simp only [serializeList] at h
    cases hy : serialize x with
    | none =>
      rw [hy] at h
      cases hys : serializeList xs <;> rw [hys] at h <;> cases h
    | some y =>
      cases hys : serializeList xs with
      | none => rw [hy, hys] at h; cases h
      | some ys2 =>
        rw [hy, hys] at h
        cases h
        show JSList.cons (parseDoc y) (parseList ys2) = JSList.cons x xs
        rw [parseDoc_serialize x y hy, parseList_serialize xs ys2 hys]

theorem parseFields_serialize : ∀ (fs : JSFields) (gs : YamlFields),
    serializeFields fs = some gs → parseFields gs = fs
  | .nil, gs, h => by
    simp only [serializeFields] at h
    cases h
    rfl
  | .cons k v fs, gs, h => by
    simp only [serializeFields] at h
    cases hw : serialize v with
    | none =>
      rw [hw] at h
      cases hws : serializeFields fs <;> rw [hws] at h <;> cases h
    | some w =>
      cases hws : serializeFields fs with
      | none => rw [hw, hws] at h; cases h
      | some ws =>
        rw [hw, hws] at h
        cases h
        show JSFields.cons k (parseDoc w) (parseFields ws) = JSFields.cons k v fs
        rw [parseDoc_serialize v w hw, parseFields_serialize fs ws hws]

end

theorem yamlKeys_serializeFields : ∀ (fs : JSFields) (gs : YamlFields),
    serializeFields fs = some gs → yamlKeys gs = fieldKeys fs
  | .nil, gs, h => by
    simp only [serializeFields] at h
    cases h
    rfl
  | .cons k v fs, gs, h => by
    simp only [serializeFields] at h
    cases hw : serialize v with
    | none =>
      rw [hw] at h
      cases hws : serializeFields fs <;> rw [hws] at h <;> cases h
    | some w =>
      cases hws : serializeFields fs with
      | none => rw [hw, hws] at h; cases h
      | some ws =>
        rw [hw, hws] at h
        cases h
        show k :: yamlKeys ws = k :: fieldKeys fs
        rw [yamlKeys_serializeFields fs ws hws]

/-- C9.  A manifest that strict validation accepts and that the
serializer can dump parses back to the very same value (so every
recognized field keeps its value and array ordering and strict
validation succeeds again), and the serialized mapping carries its
keys in the insertion order of the manifest object, not
alphabetically. -/
theorem c9_serialize_parse_roundtrip (m : JSVal) (d : YamlDoc)
    (hv : validateConfig m true = .ok ())
    (hs : serialize m = some d) :
    parseDoc d = m ∧ validateConfig (parseDoc d) true = .ok () ∧
    (∀ fs, m = .jobj fs → ∃ gs, d = .yobj gs ∧ yamlKeys gs = fieldKeys fs) := by
  have hp := parseDoc_serialize m d hs
  refine ⟨hp, by rw [hp]; exact hv, ?_⟩
  rintro fs rfl
  simp only [serialize] at hs
  cases hgs : serializeFields fs with
  | none => rw [hgs] at hs; cases hs
  | some gs =>
    rw [hgs] at hs
    cases hs
    exact ⟨gs, rfl, yamlKeys_serializeFields fs gs hgs⟩

/-- C9 witness: the round trip on the manifest
`\x7bproxies: [], mode: rule\x7d`, whose serialized form lists
`proxies` before `mode`. -/
theorem c9_serialize_parse_roundtrip_witness :
    validateConfig (.jobj (.cons "proxies" (.jarr .nil) (.cons "mode" (.jstr "rule") .nil)))
        true = .ok () ∧
    serialize (.jobj (.cons "proxies" (.jarr .nil) (.cons "mode" (.jstr "rule") .nil))) =
      some (.yobj (.cons "proxies" (.yarr .nil) (.cons "mode" (.ystr "rule") .nil))) ∧
    (parseDoc (.yobj (.cons "proxies" (.yarr .nil) (.cons "mode" (.ystr "rule") .nil))) =
        .jobj (.cons "proxies" (.jarr .nil) (.cons "mode" (.jstr "rule") .nil)) ∧
      validateConfig
        (parseDoc (.yobj (.cons "proxies" (.yarr .nil) (.cons "mode" (.ystr "rule") .nil))))
        true = .ok () ∧
      (∀ fs, (.jobj (.cons "proxies" (.jarr .nil) (.cons "mode" (.jstr "rule") .nil)) :
          JSVal) = .jobj fs →
        ∃ gs, (.yobj (.cons "proxies" (.yarr .nil) (.cons "mode" (.ystr "rule") .nil)) :
          YamlDoc) = .yobj gs ∧ yamlKeys gs = fieldKeys fs)) :=
  ⟨rfl, rfl,
    c9_serialize_parse_roundtrip
      (.jobj (.cons "proxies" (.jarr .nil) (.cons "mode" (.jstr "rule") .nil)))
      (.yobj (.cons "proxies" (.yarr .nil) (.cons "mode" (.ystr "rule") .nil)))
      rfl rfl⟩

theorem fieldLookup_none_of_not_mem : ∀ (fs : JSFields) (k : String),
    k ∉ fieldKeys fs → fieldLookup fs k = none
  | .nil, _, _ => rfl
  | .cons k' v fs, k, h => by
    simp only [fieldKeys, List.mem_cons, not_or] at h
    rw [fieldLookup, if_neg (fun he => h.1 he.symm),
      fieldLookup_none_of_not_mem fs k h.2]

theorem mem_keys_jsonRTFields : ∀ (fs : JSFields) (k : String),
    k ∈ fieldKeys (jsonRTFields fs) → k ∈ fieldKeys fs
  | .cons k' v fs, k, h => by
    simp only [jsonRTFields] at h
    cases hw : jsonRT v with
    | none =>
      rw [hw] at h
      exact List.mem_cons_of_mem _ (mem_keys_jsonRTFields fs k h)
    | some w =>
      rw [hw] at h
      simp only [fieldKeys, List.mem_cons] at h ⊢
      rcases h with h | h
      · exact Or.inl h
      · exact Or.inr (mem_keys_jsonRTFields fs k h)
  | .nil, _, h => h

theorem fieldLookup_jsonRTFields : ∀ (fs : JSFields) (k : String) (v : JSVal),
    (fieldKeys fs).Nodup → fieldLookup fs k = some v →
    fieldLookup (jsonRTFields fs) k = jsonRT v
  | .nil, _, _, _, h => Option.noConfusion h
  | .cons k' v' fs, k, v, hnd, h => by
    rw [fieldLookup] at h
    obtain ⟨hnd1, hnd2⟩ := List.nodup_cons.mp hnd
    by_cases hk : k' = k
    · subst hk
      rw [if_pos rfl] at h
      cases h
      simp only [jsonRTFields]
      cases hw : jsonRT v' with
      | none =>
        exact fieldLookup_none_of_not_mem (jsonRTFields fs) k'
          (fun hm => hnd1 (mem_keys_jsonRTFields fs k' hm))
      | some w =>
        show fieldLookup (.cons k' w (jsonRTFields fs)) k' = some w
        rw [fieldLookup, if_pos rfl]
    · rw [if_neg hk] at h
      simp only [jsonRTFields]
      cases hw : jsonRT v' with
      | none =>
        exact fieldLookup_jsonRTFields fs k v hnd2 h
      | some w =>
        show fieldLookup (.cons k' w (jsonRTFields fs)) k = jsonRT v
        rw [fieldLookup, if_neg hk]
        exact fieldLookup_jsonRTFields fs k v hnd2 h

/-- C10.  The copy handed to the routine is the JSON round trip of the
manifest: a key bound to `undefined` (or any value with no JSON
representation, such as a function) is absent from the copy, a key
bound to a convertible value holds the converted value (a `Date`
becomes its ISO string), and for a manifest holding such a value the
routine observes an object different from the original. -/
theorem c10_deep_copy_is_json_roundtrip (fs : JSFields) (k : String) (v : JSVal)
    (hnd : (fieldKeys fs).Nodup) (hk : fieldLookup fs k = some v) :
    configCopy (.jobj fs) = .jobj (jsonRTFields fs) ∧
    fieldLookup (jsonRTFields fs) k = jsonRT v ∧
    (jsonRT v = none → configCopy (.jobj fs) ≠ .jobj fs) := by
  have h2 := fieldLookup_jsonRTFields fs k v hnd hk
  refine ⟨rfl, h2, ?_⟩
  intro hnone heq
  have heq' : JSVal.jobj (jsonRTFields fs) = .jobj fs := heq
  injection heq' with h3
  rw [h3, hk] at h2
  rw [hnone] at h2
  exact Option.noConfusion h2

/-- C10 witness: the manifest `\x7ba: undefined, rules: []\x7d` — the
copy drops the key `a` entirely and therefore differs from the
original object. -/
theorem c10_deep_copy_is_json_roundtrip_witness :
    (fieldKeys (.cons "a" .undefined (.cons "rules" (.jarr .nil) .nil))).Nodup ∧
    fieldLookup (.cons "a" .undefined (.cons "rules" (.jarr .nil) .nil)) "a" = some .undefined ∧
    (configCopy (.jobj (.cons "a" .undefined (.cons "rules" (.jarr .nil) .nil))) =
        .jobj (jsonRTFields (.cons "a" .undefined (.cons "rules" (.jarr .nil) .nil))) ∧
      fieldLookup (jsonRTFields (.cons "a" .undefined (.cons "rules" (.jarr .nil) .nil))) "a" =
        jsonRT .undefined ∧
      (jsonRT .undefined = none →
        configCopy (.jobj (.cons "a" .undefined (.cons "rules" (.jarr .nil) .nil))) ≠
          .jobj (.cons "a" .undefined (.cons "rules" (.jarr .nil) .nil)))) :=
  ⟨by decide, rfl,
    c10_deep_copy_is_json_roundtrip (.cons "a" .undefined (.cons "rules" (.jarr .nil) .nil))
      "a" .undefined (by decide) rfl⟩

lemma targets_shift (off : Nat) (v : HNode) :
    (HNode.shift off v).targets = v.targets.map (· + off) := by
  cases v <;> simp [HNode.shift, HNode.targets, List.map_map]

lemma reaches_copyHeap_ge {h : Heap} {off r a : Nat} (hr : off ≤ r)
    (hra : Reaches (copyHeap h off) r a) : off ≤ a := by
  induction hra with
  | refl => exact hr
  | step hprev hsome hmem ih =>
    rw [copyHeap, if_neg (Nat.not_lt.mpr ih)] at hsome
    obtain ⟨w, hw, rfl⟩ := Option.map_eq_some'.mp hsome
    rw [targets_shift] at hmem
    obtain ⟨t, ht, rfl⟩ := List.mem_map.mp hmem
    exact Nat.le_add_left off t

lemma readVal_copyHeap (h : Heap) (off : Nat) :
    ∀ (fuel : Nat) (a : Addr),
      readVal (copyHeap h off) fuel (a + off) = readVal h fuel a := by
  intro fuel
  induction fuel with
  | zero => intro a; rfl
  | succ n ih =>
    intro a
    have hidx : a + off - off = a := Nat.add_sub_cancel a off
    have hc : copyHeap h off (a + off) = (h a).map (HNode.shift off) := by
      show (if a + off < off then h (a + off)
            else (h (a + off - off)).map (HNode.shift off)) = (h a).map (HNode.shift off)
      rw [if_neg (Nat.not_lt.mpr (Nat.le_add_left off a)), hidx]
    simp only [readVal]
    rw [hc]
    cases h a with
    | none => rfl
    | some v =>
      cases v with
      | hnull => rfl
      | hbool b => rfl
      | hnum q => rfl
      | hstr s => rfl
      | harr es =>
        show some (JSVal.jarr (JSList.ofList ((es.map (· + off)).map
            (fun b => (readVal (copyHeap h off) n b).getD .undefined)))) =
          some (JSVal.jarr (JSList.ofList (es.map
            (fun b => (readVal h n b).getD .undefined))))
        rw [List.map_map]
        congr 2
        exact congrArg _ (List.map_congr_left (fun b _ => by
          show (readVal (copyHeap h off) n (b + off)).getD .undefined = _
          rw [ih b]))
      | hobj fs =>
        show some (JSVal.jobj (JSFields.ofList ((fs.map
            (fun kv => (kv.1, kv.2 + off))).map
            (fun kv => (kv.1, (readVal (copyHeap h off) n kv.2).getD .undefined))))) =
          some (JSVal.jobj (JSFields.ofList (fs.map
            (fun kv => (kv.1, (readVal h n kv.2).getD .undefined)))))
        rw [List.map_map]
        congr 2
        exact congrArg _ (List.map_congr_left (fun kv _ => by
          show (kv.1, (readVal (copyHeap h off) n (kv.2 + off)).getD .undefined) = _
          rw [ih kv.2]))

lemma readVal_frame (h : Heap) (root : Addr) (off : Nat) (routine : HRoutine)
    (pn : String)
    (hclosed : ∀ a v, h a = some v → ∀ b ∈ v.targets, b < off ∧ (h b).isSome = true)
    (hw : WritesWithin routine) :
    ∀ (fuel : Nat) (a : Addr), a < off → (h a).isSome = true →
      readVal (executeScriptHeap h root off routine pn) fuel a = readVal h fuel a := by
  intro fuel
  induction fuel with
  | zero => intro a _ _; rfl
  | succ n ih =>
    intro a ha hs
    have hcopy : copyHeap h off a = h a := by rw [copyHeap, if_pos ha]
    have heq : executeScriptHeap h root off routine pn a = h a := by
      rw [executeScriptHeap]
      by_cases hne : routine (copyHeap h off) (root + off) pn a = copyHeap h off a
      · rw [hne, hcopy]
      · rcases hw (copyHeap h off) (root + off) pn a hne with hreach | hnone
        · exact absurd (reaches_copyHeap_ge (Nat.le_add_left off root) hreach)
            (Nat.not_le.mpr ha)
        · rw [hcopy] at hnone
          rw [hnone] at hs
          exact Bool.noConfusion hs
    simp only [readVal]
    rw [heq]
    cases hv : h a with
    | none => rfl
    | some v =>
      cases v with
      | hnull => rfl
      | hbool b => rfl
      | hnum q => rfl
      | hstr s => rfl
      | harr es =>
        show some (JSVal.jarr (JSList.ofList (es.map (fun b =>
            (readVal (executeScriptHeap h root off routine pn) n b).getD .undefined)))) =
          some (JSVal.jarr (JSList.ofList (es.map (fun b =>
            (readVal h n b).getD .undefined))))
        congr 2
        exact congrArg _ (List.map_congr_left (fun b hb => by
          rcases hclosed a _ hv b hb with ⟨hb1, hb2⟩
          rw [ih b hb1 hb2]))
      | hobj fs =>
        show some (JSVal.jobj (JSFields.ofList (fs.map (fun kv =>
            (kv.1, (readVal (executeScriptHeap h root off routine pn) n kv.2).getD .undefined))))) =
          some (JSVal.jobj (JSFields.ofList (fs.map (fun kv =>
            (kv.1, (readVal h n kv.2).getD .undefined)))))
        congr 2
        exact congrArg _ (List.map_congr_left (fun kv hkv => by
          rcases hclosed a _ hv kv.2 (List.mem_map_of_mem Prod.snd hkv) with ⟨hb1, hb2⟩
          rw [ih kv.2 hb1 hb2]))

/-- C1.  For a caller heap whose manifest graph lives strictly below
the allocation frontier `off` (every allocated address is below `off`
and every reference stays inside the allocated graph), and for every
routine that cannot forge references, the sandbox invocation: (1)
hands the routine a deep copy that materialises to exactly the value
of the original manifest, and (2) leaves the value of the original
manifest unchanged after the routine returns or throws, however the
routine mutated the object it received. -/
theorem c1_deep_copy_isolation (h : Heap) (root : Addr) (off : Nat)
    (routine : HRoutine) (pn : String) (fuel : Nat)
    (hroot : root < off)
    (hrs : (h root).isSome = true)
    (_halloc : ∀ a, off ≤ a → h a = none)
    (hclosed : ∀ a v, h a = some v → ∀ b ∈ v.targets, b < off ∧ (h b).isSome = true)
    (hw : WritesWithin routine) :
    readVal (copyHeap h off) fuel (root + off) = readVal h fuel root ∧
    readVal (executeScriptHeap h root off routine pn) fuel root =
      readVal h fuel root :=
  ⟨readVal_copyHeap h off fuel root,
   readVal_frame h root off routine pn hclosed hw fuel root hroot hrs⟩

/-- A concrete two-node caller heap: address 0 holds the manifest
object, whose `rules` field references the empty array at address 1;
the allocation frontier is 2. -/
def c1heapW : Heap := fun a =>
  if a = 0 then some (.hobj [("rules", 1)])
  else if a = 1 then some (.harr []) else none

/-- A routine that mutates the object it receives in place, clearing
all of its fields. -/
def c1routineW : HRoutine := fun g r _ => fun a =>
  if a = r then some (.hobj []) else g a

lemma c1heapW_alloc : ∀ a, 2 ≤ a → c1heapW a = none := by
  intro a ha
  unfold c1heapW
  rw [if_neg (fun h => by rw [h] at ha; exact absurd ha (by decide)),
    if_neg (fun h => by rw [h] at ha; exact absurd ha (by decide))]

lemma c1heapW_closed : ∀ a v, c1heapW a = some v →
    ∀ b ∈ v.targets, b < 2 ∧ (c1heapW b).isSome = true := by
  intro a v hv b hb
  unfold c1heapW at hv
  by_cases h0 : a = 0
  · rw [if_pos h0] at hv
    cases hv
    simp only [HNode.targets, List.map, List.mem_singleton] at hb
    subst hb
    exact ⟨by decide, rfl⟩
  · rw [if_neg h0] at hv
    by_cases h1 : a = 1
    · rw [if_pos h1] at hv
      cases hv
      simp [HNode.targets] at hb
    · rw [if_neg h1] at hv
      cases hv

lemma c1routineW_writes : WritesWithin c1routineW := by
  intro g r pn a hne
  by_cases h : a = r
  · subst h
    exact Or.inl Reaches.refl
  · exact absurd (by unfold c1routineW; rw [if_neg h]) hne

/-- C1 witness: the isolation theorem applied to the concrete heap and
the field-clearing routine. -/
theorem c1_deep_copy_isolation_witness :
    (0 : Addr) < 2 ∧ (c1heapW 0).isSome = true ∧
    (∀ a, 2 ≤ a → c1heapW a = none) ∧
    (∀ a v, c1heapW a = some v → ∀ b ∈ v.targets, b < 2 ∧ (c1heapW b).isSome = true) ∧
    WritesWithin c1routineW ∧
    (readVal (copyHeap c1heapW 2) 3 (0 + 2) = readVal c1heapW 3 0 ∧
     readVal (executeScriptHeap c1heapW 0 2 c1routineW "profile") 3 0 =
       readVal c1heapW 3 0) :=
  ⟨by decide, rfl, c1heapW_alloc, c1heapW_closed, c1routineW_writes,
    c1_deep_copy_isolation c1heapW 0 2 c1routineW "profile" 3 (by decide) rfl
      c1heapW_alloc c1heapW_closed c1routineW_writes⟩

lemma processFileSeq_input (env : BatchEnv) (opts : BatchOpts) (script : SandboxScript)
    (f : String) : (processFileSeq env opts script f).input = some f := by
  unfold processFileSeq
  cases env.readYaml f with
  | error msg => rfl
  | ok config =>
    dsimp only
    cases executeScript config script (profileOf f) env.elapsed with
    | error e => rfl
    | ok processed =>
      dsimp only
      cases serialize processed with
      | none => rfl
      | some d =>
        dsimp only
        cases env.write (outPath opts.overwrite opts.outputDir f) with
        | error msg => rfl
        | ok u => cases u; rfl

lemma processFilePar_input (env : BatchEnv) (opts : BatchOpts) (script : SandboxScript)
    (f : String) : (processFilePar env opts script f).input = some f := by
  unfold processFilePar
  cases env.readYaml f with
  | error msg => rfl
  | ok config =>
    dsimp only
    cases executeScript config script (profileOf f) env.elapsed with
    | error e => rfl
    | ok processed =>
      dsimp only
      cases serialize processed with
      | none => rfl
      | some d =>
        dsimp only
        cases env.write (outPath opts.overwrite opts.outputDir f) with
        | error msg => rfl
        | ok u => cases u; rfl

lemma batchLoop_eq_map (env : BatchEnv) (opts : BatchOpts) (script : SandboxScript) :
    ∀ (fs seen : List String),
      batchLoop env opts script seen fs =
        (dedupAux seen fs).map (processFileSeq env opts script) := by
  intro fs
  induction fs with
  | nil => intro seen; rfl
  | cons f rest ih =>
    intro seen
    rw [batchLoop, dedupAux]
    by_cases h : f ∈ seen
    · rw [if_pos h, if_pos h, ih]
    · rw [if_neg h, if_neg h]
      simp only [List.map_cons]
      rw [ih]

lemma mkdir_step_ok (env : BatchEnv) (opts : BatchOpts)
    (hm : env.mkdirResult = .ok ()) :
    (if !opts.overwrite && opts.outputDir.isSome then env.mkdirResult
     else .ok ()) = Except.ok () := by
  by_cases hb : (!opts.overwrite && opts.outputDir.isSome) = true
  · rw [if_pos hb, hm]
  · rw [if_neg hb]

lemma sliceGroupsAux_flatten (c : Nat) (hc : 0 < c) :
    ∀ (n : Nat) (xs : List String), xs.length ≤ n →
      (sliceGroupsAux c n xs).flatten = xs := by
  intro n
  induction n with
  | zero =>
    intro xs hx
    have hnil : xs = [] := List.eq_nil_of_length_eq_zero (Nat.le_zero.mp hx)
    subst hnil
    rfl
  | succ m ih =>
    intro xs hx
    cases xs with
    | nil => rfl
    | cons y ys =>
      show ((y :: ys).take c :: sliceGroupsAux c m ((y :: ys).drop c)).flatten = y :: ys
      rw [List.flatten_cons, ih ((y :: ys).drop c) (by
        rw [List.length_drop]
        simp only [List.length_cons] at hx ⊢
        omega)]
      exact List.take_append_drop c (y :: ys)

lemma sliceGroups_flatten (c : Nat) (hc : 0 < c) (xs : List String) :
    (sliceGroups c xs).flatten = xs := by
  rw [sliceGroups, if_neg (Nat.pos_iff_ne_zero.mp hc)]
  exact sliceGroupsAux_flatten c hc xs.length xs le_rfl

lemma flatten_map_map {α β : Type} (f : α → β) (l : List (List α)) :
    (l.map (List.map f)).flatten = l.flatten.map f := by
  simp [List.map_flatten]

/-- C7 (amended).  Under a readable script, a successful glob and a
creatable output directory: the SEQUENTIAL batch runner produces
exactly one outcome per unique matched path, in first-occurrence
order; the PARALLEL variant has no deduplication and produces one
outcome per occurrence in the matched list, duplicates included. -/
theorem c7_unique_path_processing (env : BatchEnv) (opts : BatchOpts) (conc : Nat)
    (script : SandboxScript) (files : List String)
    (hs : env.script = .ok script) (hf : env.files = .ok files)
    (hm : env.mkdirResult = .ok ()) (hc : 0 < conc) :
    (batchProcess env opts).map (fun r => r.input) = (dedupFiles files).map some ∧
    ∃ rs, batchProcessParallel env opts conc = .ok rs ∧
      rs.map (fun r => r.input) = files.map some := by
  constructor
  · rw [batchProcess, hs, hf]
    dsimp only
    by_cases he : files.isEmpty
    · rw [if_pos he, List.isEmpty_iff.mp he]
      rfl
    · rw [if_neg he, mkdir_step_ok env opts hm]
      show (batchLoop env opts script [] files).map (fun r => r.input) =
        (dedupFiles files).map some
      rw [batchLoop_eq_map, List.map_map]
      exact List.map_congr_left (fun f _ => processFileSeq_input env opts script f)
  · rw [batchProcessParallel, hs, hf]
    dsimp only
    by_cases he : files.isEmpty
    · rw [if_pos he]
      exact ⟨[], rfl, by rw [List.isEmpty_iff.mp he]; rfl⟩
    · rw [if_neg he, mkdir_step_ok env opts hm]
      refine ⟨_, rfl, ?_⟩
      rw [flatten_map_map, sliceGroups_flatten conc hc files, List.map_map]
      exact List.map_congr_left (fun f _ => processFilePar_input env opts script f)

/-- C8.  Under a readable script, a successful glob and a creatable
output directory, the sequential batch result is exactly the map of
the per-file processor over the unique matched paths — each outcome
is a function of its own file alone, so one failing input cannot
abort or alter any other file — and a file whose read or YAML parse
fails is recorded as an `\x7binput, error, success: false\x7d` entry. -/
theorem c8_per_file_failure_isolation (env : BatchEnv) (opts : BatchOpts)
    (script : SandboxScript) (files : List String)
    (hs : env.script = .ok script) (hf : env.files = .ok files)
    (hm : env.mkdirResult = .ok ()) :
    batchProcess env opts =
      (dedupFiles files).map (processFileSeq env opts script) ∧
    (∀ f msg, env.readYaml f = .error msg →
      processFileSeq env opts script f =
        ⟨some f, none, some ("读取或解析文件失败: " ++ msg), false⟩) := by
  constructor
  · rw [batchProcess, hs, hf]
    dsimp only
    by_cases he : files.isEmpty
    · rw [if_pos he, List.isEmpty_iff.mp he]
      rfl
    · rw [if_neg he, mkdir_step_ok env opts hm]
      exact batchLoop_eq_map env opts script files []
  · intro f msg h
    unfold processFileSeq
    rw [h]

/-- A routine that returns the config it received unchanged. -/
def demoScript : SandboxScript :=
  ⟨"function main(c)\x7breturn c\x7d", true, fun c _ => .ret c⟩

/-- A batch environment whose glob matched the same path twice and
whose files cannot be read. -/
def c7env : BatchEnv :=
  ⟨.ok demoScript, .ok ["a.yaml", "a.yaml"], .ok (),
    fun _ => .error "nope", fun _ => .ok (), 0⟩

/-- C7 counterexample.  On a match that lists the same path twice, the
parallel variant produces two outcomes (one per occurrence) even
though there is exactly one unique matched path; the sequential
variant collapses the duplicate as the claim describes.  The claim
that BOTH variants produce one outcome per unique path is therefore
false. -/
theorem c7_claim_counterexample :
    (batchProcessParallel c7env ⟨true, none⟩ 2).map List.length = .ok 2 ∧
    (dedupFiles ["a.yaml", "a.yaml"]).length = 1 ∧
    (batchProcess c7env ⟨true, none⟩).length = 1 :=
  ⟨rfl, rfl, rfl⟩

/-- C7 witness: the amended theorem applied to the duplicate-path
environment. -/
theorem c7_unique_path_processing_witness :
    c7env.script = .ok demoScript ∧ c7env.files = .ok ["a.yaml", "a.yaml"] ∧
    c7env.mkdirResult = .ok () ∧ 0 < 2 ∧
    ((batchProcess c7env ⟨true, none⟩).map (fun r => r.input) =
        (dedupFiles ["a.yaml", "a.yaml"]).map some ∧
      ∃ rs, batchProcessParallel c7env ⟨true, none⟩ 2 = .ok rs ∧
        rs.map (fun r => r.input) = ["a.yaml", "a.yaml"].map some) :=
  ⟨rfl, rfl, rfl, by decide,
    c7_unique_path_processing c7env ⟨true, none⟩ 2 demoScript
      ["a.yaml", "a.yaml"] rfl rfl rfl (by decide)⟩

/-- The five-file batch of the spec scenario: one file holds invalid
YAML, the others parse to empty manifests. -/
def c8env : BatchEnv :=
  ⟨.ok demoScript, .ok ["a.yaml", "b.yaml", "c.yaml", "d.yaml", "e.yaml"], .ok (),
    fun f => if f = "c.yaml" then .error "invalid yaml" else .ok (.jobj .nil),
    fun _ => .ok (), 0⟩

/-- C8 witness: on the five-file batch with one invalid-YAML file, the
sequential runner is the per-file map over the unique paths, and the
outcome is 4 successes and 1 recorded failure. -/
theorem c8_per_file_failure_isolation_witness :
    c8env.script = .ok demoScript ∧
    c8env.files = .ok ["a.yaml", "b.yaml", "c.yaml", "d.yaml", "e.yaml"] ∧
    c8env.mkdirResult = .ok () ∧
    batchProcess c8env ⟨true, none⟩ =
      (dedupFiles ["a.yaml", "b.yaml", "c.yaml", "d.yaml", "e.yaml"]).map
        (processFileSeq c8env ⟨true, none⟩ demoScript) ∧
    ((batchProcess c8env ⟨true, none⟩).filter (fun r => r.success)).length = 4 ∧
    ((batchProcess c8env ⟨true, none⟩).filter (fun r => !r.success)).length = 1 ∧
    processFileSeq c8env ⟨true, none⟩ demoScript "c.yaml" =
      ⟨some "c.yaml", none, some ("读取或解析文件失败: " ++ "invalid yaml"), false⟩ :=
  ⟨rfl, rfl, rfl,
    (c8_per_file_failure_isolation c8env ⟨true, none⟩ demoScript
      ["a.yaml", "b.yaml", "c.yaml", "d.yaml", "e.yaml"] rfl rfl rfl).1,
    rfl, rfl,
    (c8_per_file_failure_isolation c8env ⟨true, none⟩ demoScript
      ["a.yaml", "b.yaml", "c.yaml", "d.yaml", "e.yaml"] rfl rfl rfl).2
      "c.yaml" "invalid yaml" rfl⟩
